import Mathlib

/-!
Verification of the tensegrity simulation engine
(`research/simulation`): graph/Laplacian model, energy formulas, the
field-derivation pipeline, actor policies and event application, shallowly
embedded in Lean.  Python dicts keyed by node are modelled as total
functions `String → ℚ`; node and edge insertion order is preserved in
lists, matching networkx iteration order.
-/

namespace Tensegrity

/-- An undirected weighted edge `(i, j, weight)`, stored in insertion order
as in the networkx adjacency structure. -/
abbrev Edge := String × String × ℚ

/-- Does stored edge `e` connect nodes `i` and `j` (either orientation)?
Models networkx undirected-edge identity. -/
def edgeMatchB (e : Edge) (i j : String) : Bool :=
  decide ((e.1 = i ∧ e.2.1 = j) ∨ (e.1 = j ∧ e.2.1 = i))

/-- Weight of the edge between `i` and `j`, if present
(first matching stored edge, as in the adjacency dict). -/
def findEdgeWeight (es : List Edge) (i j : String) : Option ℚ :=
  (es.find? (fun e => edgeMatchB e i j)).map (fun e => e.2.2)

/-- Entry `A[i][j]` of the weighted adjacency matrix: the edge weight, or 0
when no edge joins `i` and `j`. -/
def adjW (es : List Edge) (i j : String) : ℚ :=
  (findEdgeWeight es i j).getD 0

/-- Row sum of the adjacency matrix at node `u`: the degree entry `D[u][u]`
used by `nx.laplacian_matrix` (`D = diag(A.sum(axis=1))`). -/
def rowDegree (ns : List String) (es : List Edge) (u : String) : ℚ :=
  (ns.map (fun v => adjW es u v)).sum

/-- Entry of the Laplacian `L = D - A` at node pair `(u, v)`. -/
def lapEntry (ns : List String) (es : List Edge) (u v : String) : ℚ :=
  (if u = v then rowDegree ns es u else 0) - adjW es u v

/-- The full Laplacian matrix `L = D - A` over the node order `ns`,
as computed by `nx.laplacian_matrix(...).toarray()`. -/
def lapMatrix (ns : List String) (es : List Edge) : List (List ℚ) :=
  ns.map (fun u => ns.map (fun v => lapEntry ns es u v))

/-- `TensegrityGraph`: node list, edge list, and the cached Laplacian `L`
(recomputed synchronously by `_update_laplacian` after every mutation). -/
structure TGraph where
  nodes : List String
  edges : List Edge
  L : List (List ℚ)

/-- `G.add_node(i)` semantics: append `i` if absent (networkx node dicts
keep insertion order and ignore re-insertion). -/
def insertNode (ns : List String) (i : String) : List String :=
  if i ∈ ns then ns else ns ++ [i]

/-- `G.add_edge(i, j, weight=w)` semantics: add missing endpoints, then
update the weight of an existing `(i, j)` edge or append a new one. -/
def addEdgeRaw (ns : List String) (es : List Edge) (i j : String) (w : ℚ) :
    List String × List Edge :=
  let ns2 := insertNode (insertNode ns i) j
  let es2 :=
    if es.any (fun e => edgeMatchB e i j) then
      es.map (fun e => if edgeMatchB e i j then (e.1, e.2.1, w) else e)
    else
      es ++ [(i, j, w)]
  (ns2, es2)

/-- `TensegrityGraph.__init__`: add all nodes, then all weighted edges,
then compute the cached Laplacian. -/
def TGraph.init (nodes : List String) (edges : List Edge) : TGraph :=
  let ns0 := nodes.foldl insertNode []
  let p := edges.foldl
    (fun (acc : List String × List Edge) e => addEdgeRaw acc.1 acc.2 e.1 e.2.1 e.2.2)
    (ns0, [])
  { nodes := p.1, edges := p.2, L := lapMatrix p.1 p.2 }

/-- `TensegrityGraph.add_edge_weighted`: upsert the edge (no weight
validation in the source), then recompute the Laplacian. -/
def TGraph.add_edge_weighted (g : TGraph) (i j : String) (w : ℚ) : TGraph :=
  let p := addEdgeRaw g.nodes g.edges i j w
  { nodes := p.1, edges := p.2, L := lapMatrix p.1 p.2 }

/-- `TensegrityGraph.remove_edge_safe`: remove the edge and recompute the
Laplacian only when the edge exists; otherwise leave the graph untouched. -/
def TGraph.remove_edge_safe (g : TGraph) (i j : String) : TGraph :=
  if g.edges.any (fun e => edgeMatchB e i j) then
    let es := g.edges.filter (fun e => !(edgeMatchB e i j))
    { nodes := g.nodes, edges := es, L := lapMatrix g.nodes es }
  else g

/-- `TensegrityGraph.get_neighbors`: the other endpoint of every edge
incident to `node`, in edge insertion order. -/
def TGraph.get_neighbors (g : TGraph) (node : String) : List String :=
  g.edges.filterMap (fun e =>
    if e.1 = node then some e.2.1
    else if e.2.1 = node then some e.1 else none)

/-- `TensegrityGraph.edge_count`. -/
def TGraph.edge_count (g : TGraph) : ℕ := g.edges.length

/-- The adjacency-dict weight access `G[node][neighbor].get('weight', 1.0)`:
default 1 when the attribute is missing (never hit for edges built here). -/
def edgeWeightD (g : TGraph) (i j : String) : ℚ :=
  (findEdgeWeight g.edges i j).getD 1

/-- `compute_structural_potential(L, bad) = ½ badᵀ L bad`, written out as
the matrix-vector quadratic form over the row list. -/
def compute_structural_potential (L : List (List ℚ)) (bad : List ℚ) : ℚ :=
  (1/2) * ((L.zip bad).map (fun rb =>
    rb.2 * ((rb.1.zip bad).map (fun p => p.1 * p.2)).sum)).sum

/-- `compute_business_potential`: `Σ demand[i]·(λ1(1−health[i]) + λ2·complexity[i])`.
The source iterates `demand.keys()`, which in the engine is exactly the
construction-time node set; the mapping iteration is modelled over the
node list. -/
def compute_business_potential (nodes : List String)
    (demand health complexity : String → ℚ) (lam1 lam2 : ℚ) : ℚ :=
  (nodes.map (fun n =>
    demand n * (lam1 * (1 - health n) + lam2 * complexity n))).sum

/-- `compute_kinetic_energy(bad_curr, bad_prev, mass=None)` with the MVP
uniform mass: `½ Σ (bad_curr[i] − bad_prev[i])²`. -/
def compute_kinetic_energy (bad_curr bad_prev : List ℚ) : ℚ :=
  (1/2) * (((bad_curr.zip bad_prev).map (fun p => (p.1 - p.2) ^ 2)).sum)

/-- An entry of `SimulationState.incidents` (the dict appended by
`record_incident`). -/
structure Incident where
  time_step : ℕ
  node : String
  type : String
  severity : ℚ
  bad : ℚ
  E_local : ℚ
  health : ℚ
  complexity : ℚ
deriving DecidableEq

/-- `SimulationState`: graph plus field mappings and cached energies.
Dicts keyed by node id are modelled as total functions `String → ℚ`;
`bad_prev` is read through `.get(n, 0.0)` in the source, so its
zero-initialized default is the constant-zero function. -/
structure SimulationState where
  graph : TGraph
  health : String → ℚ
  complexity : String → ℚ
  demand : String → ℚ
  risk : String → ℚ
  bad : String → ℚ
  bad_prev : String → ℚ
  flow : String → ℚ × ℚ
  grad_V : String → ℚ
  V_struct : ℚ
  V_bus : ℚ
  V : ℚ
  T : ℚ
  H : ℚ
  L : ℚ
  E_local : String → ℚ
  incidents : List Incident
  time_step : ℕ

/-- Dataclass construction with the default field factories: derived
dicts empty (reads happen only after `update_derived_fields`, except
`bad_prev` whose `.get` default is 0), energies 0, `time_step` 0. -/
def SimulationState.create (graph : TGraph)
    (health complexity demand : String → ℚ) : SimulationState :=
  { graph := graph, health := health, complexity := complexity, demand := demand,
    risk := fun _ => 0, bad := fun _ => 0, bad_prev := fun _ => 0,
    flow := fun _ => (0, 0), grad_V := fun _ => 0,
    V_struct := 0, V_bus := 0, V := 0, T := 0, H := 0, L := 0,
    E_local := fun _ => 0, incidents := [], time_step := 0 }

/-- The incident edges of `node` as `(neighbor, weight)` pairs, modelling
the gradient loop `for neighbor in get_neighbors(node)` with its weight
access. -/
def incidentPairs (g : TGraph) (node : String) : List (String × ℚ) :=
  g.edges.filterMap (fun e =>
    if e.1 = node then some (e.2.1, e.2.2)
    else if e.2.1 = node then some (e.1, e.2.2) else none)

/-- `compute_local_dirichlet_energy`: `Σ_{j ∈ neighbors(node)} ½·w·(bad[node]−bad[j])²`,
with the adjacency weight access defaulting to 1 if the attribute is absent. -/
def compute_local_dirichlet_energy (g : TGraph) (bad : String → ℚ) (node : String) : ℚ :=
  ((g.get_neighbors node).map (fun j =>
    (1/2) * edgeWeightD g node j * (bad node - bad j) ^ 2)).sum

/-- `compute_hamiltonian(T, V_struct, V_bus) = T + V_struct + V_bus`. -/
def compute_hamiltonian (T V_struct V_bus : ℚ) : ℚ := T + V_struct + V_bus

/-- `compute_lagrangian(T, V) = T − V`. -/
def compute_lagrangian (T V : ℚ) : ℚ := T - V

/-- `SimulationState.update_derived_fields(α, β, γ)`: the fixed-order
pipeline risk → bad → grad → flow, each loop writing every graph node
(keys outside the node set keep their old values, as in a dict update).
Flow weights `α_flow=0.6, β_flow=0.4` are hardcoded in the source. -/
def SimulationState.update_derived_fields (s : SimulationState)
    (a b c : ℚ) : SimulationState :=
  let ns := s.graph.nodes
  let risk2 : String → ℚ := fun n =>
    if n ∈ ns then s.complexity n * (1 - s.health n) else s.risk n
  let bad2 : String → ℚ := fun n =>
    if n ∈ ns then a * (1 - s.health n) + b * s.complexity n + c * risk2 n
    else s.bad n
  let grad2 : String → ℚ := fun n =>
    if n ∈ ns then ((incidentPairs s.graph n).map (fun p => p.2 * (bad2 n - bad2 p.1))).sum
    else s.grad_V n
  let flow2 : String → ℚ × ℚ := fun n =>
    if n ∈ ns then ((3/5) * s.demand n, (2/5) * (-(grad2 n))) else s.flow n
  { s with risk := risk2, bad := bad2, grad_V := grad2, flow := flow2 }

/-- `SimulationState.update_energies`: node-ordered badness vector against
the cached Laplacian, `bad_prev.get(n, 0.0)` for the kinetic term, then
`V`, `H`, `L` and the per-node local Dirichlet energies. -/
def SimulationState.update_energies (s : SimulationState) : SimulationState :=
  let ns := s.graph.nodes
  let bad_array := ns.map s.bad
  let bad_prev_array := ns.map s.bad_prev
  let vs := compute_structural_potential s.graph.L bad_array
  let vb := compute_business_potential ns s.demand s.health s.complexity (3/5) (2/5)
  let v := vs + vb
  let t := compute_kinetic_energy bad_array bad_prev_array
  let h := compute_hamiltonian t vs vb
  let lg := compute_lagrangian t v
  let el : String → ℚ := fun n =>
    if n ∈ ns then compute_local_dirichlet_energy s.graph s.bad n else s.E_local n
  { s with V_struct := vs, V_bus := vb, V := v, T := t, H := h, L := lg, E_local := el }

/-- `SimulationState.step_forward`: snapshot `bad` into `bad_prev` and
increment the time counter; nothing else is touched. -/
def SimulationState.step_forward (s : SimulationState) : SimulationState :=
  { s with bad_prev := s.bad, time_step := s.time_step + 1 }

/-- Dict single-key assignment `d[k] = v`. -/
def dictSet (f : String → ℚ) (k : String) (v : ℚ) : String → ℚ :=
  fun m => if m = k then v else f m

/-- The event taxonomy of `events/field_events.py`. -/
inductive Event where
  | featureChange (node : String) (magnitude : ℚ)
  | refactor (node : String) (magnitude : ℚ)
  | patch (node : String) (magnitude : ℚ)
  | healthDecay (node : Option String) (rate : ℚ)
deriving DecidableEq

/-- The magnitude (or decay rate) parameter carried by an event. -/
def Event.magnitude : Event → ℚ
  | .featureChange _ m => m
  | .refactor _ m => m
  | .patch _ m => m
  | .healthDecay _ r => r

/-- `Event.apply(state)`: the clamped field writes of each event class,
in source order (each write clamps one side only). -/
def Event.apply : Event → SimulationState → SimulationState
  | .featureChange node mag, s =>
      let s1 := { s with complexity := dictSet s.complexity node (min 1 (s.complexity node + mag)) }
      { s1 with health := dictSet s1.health node (max 0 (s1.health node - (1/2) * mag)) }
  | .refactor node mag, s =>
      let s1 := { s with complexity := dictSet s.complexity node (max 0 (s.complexity node - mag)) }
      { s1 with health := dictSet s1.health node (min 1 (s1.health node + (4/5) * mag)) }
  | .patch node mag, s =>
      let s1 := { s with health := dictSet s.health node (min 1 (s.health node + mag)) }
      { s1 with complexity := dictSet s1.complexity node (min 1 (s1.complexity node + (1/20) * mag)) }
  | .healthDecay none rate, s =>
      { s with health := fun n => if n ∈ s.graph.nodes then max 0 (s.health n - rate) else s.health n }
  | .healthDecay (some node) rate, s =>
      { s with health := dictSet s.health node (max 0 (s.health node - rate)) }

/-- Python `max(scores, key=scores.get)` over the node list: keeps the
current best on ties and replaces it only on a strictly greater score, so
the result is the first node attaining the maximal score; raises on an
empty dict (modelled by `none`). -/
def pickMax (score : String → ℚ) : List String → Option String
  | [] => none
  | n :: ns => some (ns.foldl (fun best m => if score best < score m then m else best) n)

/-- `FeatureEngineer.choose_action`: arg-max of
`business_weight·demand − stability_weight·bad`, emitting
`FeatureChange(best, 0.1)`. -/
def FeatureEngineer.choose_action (business_weight stability_weight : ℚ)
    (s : SimulationState) : Option Event :=
  (pickMax (fun n => business_weight * s.demand n - stability_weight * s.bad n)
    s.graph.nodes).map (fun best => Event.featureChange best (1/10))

/-- `RefactorEngineer.choose_action`: arg-max of
`stability_weight·bad + business_weight·demand`, emitting
`Refactor(best, 0.15)`. -/
def RefactorEngineer.choose_action (business_weight stability_weight : ℚ)
    (s : SimulationState) : Option Event :=
  (pickMax (fun n => stability_weight * s.bad n + business_weight * s.demand n)
    s.graph.nodes).map (fun best => Event.refactor best (15/100))

/-- `NodeSelector.select_by_demand(..., top_n=1)[0]`: Python's stable
descending sort puts the first maximal-demand node first, which is the
same node `pickMax` returns. -/
def NodeSelector.select_by_demand (s : SimulationState) : Option String :=
  pickMax (fun n => s.demand n) s.graph.nodes

/-- `NodeSelector.select_by_badness(..., top_n=1)[0]`, same stable-sort
argument as for demand. -/
def NodeSelector.select_by_badness (s : SimulationState) : Option String :=
  pickMax (fun n => s.bad n) s.graph.nodes

/-- `AIAgent.choose_action` with the uniform draw `r` made explicit.
Stage 1 adjusts `feature_bias` by the stress factor `min(1, H/2)` and
compares the draw against the adjusted bias; stage 2 picks the target by
flow component (or by demand/badness when flow selection is off).  The
Python guard `if self.use_flow and state.flow:` also tests dict
truthiness; with total-function fields the flow mapping is nonempty in
every reachable state with nodes, so the guard reduces to `use_flow`. -/
def AIAgent.choose_action (feature_bias : ℚ) (use_flow : Bool) (r : ℚ)
    (s : SimulationState) : Option Event :=
  let stress_factor := min 1 (s.H / 2)
  let adjusted_bias := feature_bias * (1 - (1/2) * stress_factor)
  let isFeature : Bool := decide (r < adjusted_bias)
  let target : Option String :=
    if use_flow then
      pickMax (fun n => if isFeature then (s.flow n).1 else (s.flow n).2) s.graph.nodes
    else if isFeature then NodeSelector.select_by_demand s
    else NodeSelector.select_by_badness s
  target.map (fun best =>
    if isFeature then Event.featureChange best (1/10) else Event.refactor best (15/100))

/-- `Actor.act`: increments the action counter exactly when
`choose_action` returned a non-null event. -/
def actCount (e : Option Event) (c : ℕ) : ℕ :=
  if e.isSome then c + 1 else c

/-- The initial part of `Simulator.run()`: derive fields (with the default
weights α=0.4, β=0.3, γ=0.3) and then recompute energies, before any step
has executed. -/
def Simulator.run_init (s : SimulationState) : SimulationState :=
  (s.update_derived_fields (2/5) (3/10) (3/10)).update_energies

/-- `incident_probability(bad_i, threshold, steepness, max_prob)`:
`max_prob · expit(steepness·(bad_i − threshold))` with the logistic sigmoid
`expit(x) = 1/(1+exp(−x))`. -/
noncomputable def incident_probability (bad_i threshold steepness max_prob : ℝ) : ℝ :=
  max_prob * (1 / (1 + Real.exp (-(steepness * (bad_i - threshold)))))

/-- The clamping invariant of the event layer: every health and complexity
value lies in the unit interval. -/
def fieldsInUnit (s : SimulationState) : Prop :=
  ∀ n, (0 ≤ s.health n ∧ s.health n ≤ 1) ∧ (0 ≤ s.complexity n ∧ s.complexity n ≤ 1)

/-- A one-node scenario for the first energy computation of a run:
health 0.5, complexity 0.6, demand 0.5, `bad_prev` zero-initialized. -/
def stateC1 : SimulationState :=
  SimulationState.create (TGraph.init ["A"] []) (fun _ => 1/2) (fun _ => 3/5) (fun _ => 1/2)

/-- `stateC1` after the run's initial `update_derived_fields()` call. -/
def stateC1d : SimulationState := stateC1.update_derived_fields (2/5) (3/10) (3/10)

/-- A two-node edgeless graph used to probe `add_edge_weighted`. -/
def graphC2 : TGraph := TGraph.init ["A", "B"] []

/-- A one-node state with all fields at 0.5 (inside the unit interval). -/
def stateC3 : SimulationState :=
  SimulationState.create (TGraph.init ["A"] []) (fun _ => 1/2) (fun _ => 1/2) (fun _ => 1/2)

/-- One node with health 0.5, complexity 0.6 — the spec's worked example
for the risk/badness derivation. -/
def stateC6 : SimulationState :=
  SimulationState.create (TGraph.init ["A"] []) (fun _ => 1/2) (fun _ => 3/5) (fun _ => 1/2)

/-- The two-edge star: center `A`, leaves `B`, `C`, all weights 1. -/
def gStar : TGraph := TGraph.init ["A", "B", "C"] [("A", "B", 1), ("A", "C", 1)]

/-- Badness `{A: 1, B: 0, C: 0}` on the star. -/
def badStar : String → ℚ := fun n => if n = "A" then 1 else 0

/-- An edgeless two-node graph: every node is isolated. -/
def gIso : TGraph := TGraph.init ["A", "B"] []

/-- Two tied nodes (constant demand and badness), to exercise the
first-in-order tie-break of the actor arg-max. -/
def stateC8 : SimulationState :=
  SimulationState.create (TGraph.init ["A", "B"] []) (fun _ => 1) (fun _ => 1) (fun _ => 1/2)

/-- A two-node state used to witness that every actor emits an event. -/
def stateC10 : SimulationState :=
  SimulationState.create (TGraph.init ["A", "B"] []) (fun _ => 4/5) (fun _ => 1/2) (fun _ => 3/5)

/-- The match predicate is symmetric in its two node arguments. -/
theorem edgeMatchB_symm (e : Edge) (i j : String) :
    edgeMatchB e i j = edgeMatchB e j i := by
  simp only [edgeMatchB, decide_eq_decide]
  tauto

/-- Edge-weight lookup is symmetric in the two endpoints. -/
theorem findEdgeWeight_symm (es : List Edge) (i j : String) :
    findEdgeWeight es i j = findEdgeWeight es j i := by
  unfold findEdgeWeight
  have h : (fun e => edgeMatchB e i j) = (fun e => edgeMatchB e j i) := by
    funext e; exact edgeMatchB_symm e i j
  rw [h]

/-- Adjacency entries are symmetric: `A[u][v] = A[v][u]`. -/
theorem adjW_symm (es : List Edge) (i j : String) : adjW es i j = adjW es j i := by
  unfold adjW
  rw [findEdgeWeight_symm]

/-- Laplacian entries are symmetric in the two nodes. -/
theorem lapEntry_symm (ns : List String) (es : List Edge) (u v : String) :
    lapEntry ns es u v = lapEntry ns es v u := by
  unfold lapEntry
  rw [adjW_symm]
  rcases eq_or_ne u v with h | h
  · subst h; rfl
  · rw [if_neg h, if_neg (Ne.symm h)]

/-- The `getD`-read Laplacian matrix is symmetric at every index pair
(out-of-range reads return the same default on both sides). -/
theorem lapMatrix_getD_symm (ns : List String) (es : List Edge) (i j : ℕ) :
    (((lapMatrix ns es).getD i []).getD j 0) = (((lapMatrix ns es).getD j []).getD i 0) := by
  unfold lapMatrix
  simp only [List.getD_eq_getElem?_getD, List.getElem?_map]
  rcases hi : ns[i]? with _ | u <;> rcases hj : ns[j]? with _ | v <;>
    simp [hi, hj, lapEntry_symm]

/-- Summing `if u = v then c else 0` over a duplicate-free list containing
`u` yields `c`. -/
theorem sum_if_eq_of_nodup (ns : List String) (u : String) (c : ℚ)
    (hd : ns.Nodup) (hu : u ∈ ns) :
    (ns.map (fun v => if u = v then c else 0)).sum = c := by
  induction ns with
  | nil => cases hu
  | cons a t ih =>
      rcases List.mem_cons.mp hu with h | h
      · have hnot : ∀ v ∈ t, ¬ (u = v) := by
          intro v hv huv
          exact (List.nodup_cons.mp hd).1 (h ▸ huv ▸ hv)
        simp only [List.map_cons, List.sum_cons, if_pos h]
        have hz : (t.map (fun v => if u = v then c else 0)).sum = 0 := by
          apply List.sum_eq_zero
          intro x hx
          rcases List.mem_map.mp hx with ⟨v, hv, rfl⟩
          exact if_neg (hnot v hv)
        rw [hz]; ring
      · have hne : u ≠ a := by
          rintro rfl
          exact (List.nodup_cons.mp hd).1 h
        simp only [List.map_cons, List.sum_cons, if_neg hne]
        rw [ih (List.nodup_cons.mp hd).2 h]
        ring

/-- Pointwise difference distributes over a mapped list sum. -/
theorem list_sum_map_sub (l : List String) (f g : String → ℚ) :
    (l.map (fun v => f v - g v)).sum = (l.map f).sum - (l.map g).sum := by
  induction l with
  | nil => simp
  | cons a t ih =>
      simp only [List.map_cons, List.sum_cons]
      rw [ih]
      ring

/-- Each Laplacian row (at a node `u` of a duplicate-free node list) sums
to zero: the degree entry is exactly the row sum of the adjacency row. -/
theorem lapRow_sum_zero (ns : List String) (es : List Edge) (u : String)
    (hd : ns.Nodup) (hu : u ∈ ns) :
    (ns.map (fun v => lapEntry ns es u v)).sum = 0 := by
  unfold lapEntry
  rw [list_sum_map_sub ns (fun v => if u = v then rowDegree ns es u else 0)
    (fun v => adjW es u v)]
  rw [sum_if_eq_of_nodup ns u (rowDegree ns es u) hd hu]
  unfold rowDegree
  ring

/-- Replacing the weight of a matching edge leaves the match status of
every stored edge unchanged. -/
theorem edgeMatchB_upsert (i j : String) (w : ℚ) (e : Edge) :
    edgeMatchB (if edgeMatchB e i j then (e.1, e.2.1, w) else e) i j = edgeMatchB e i j := by
  cases he : edgeMatchB e i j
  · rw [if_neg (by simp [he])]
    exact he
  · rw [if_pos (by simp [he])]
    unfold edgeMatchB at he ⊢
    simpa using he

/-- After an upsert via `addEdgeRaw`, looking up the `(i, j)` edge finds
weight `w` (the source performs no weight validation). -/
theorem addEdgeRaw_find (ns : List String) (es : List Edge) (i j : String) (w : ℚ) :
    findEdgeWeight (addEdgeRaw ns es i j w).2 i j = some w := by
  unfold addEdgeRaw findEdgeWeight
  cases h : es.any (fun e => edgeMatchB e i j) with
  | true =>
      simp only [if_pos rfl, if_true, List.find?_map]
      have hcomp : ((fun e => edgeMatchB e i j) ∘
          (fun e : Edge => if edgeMatchB e i j then (e.1, e.2.1, w) else e)) =
          (fun e => edgeMatchB e i j) := by
        funext e
        exact edgeMatchB_upsert i j w e
      rw [hcomp]
      rcases List.any_eq_true.mp h with ⟨e, he, hm⟩
      obtain ⟨e0, hfind⟩ : ∃ e0, es.find? (fun e => edgeMatchB e i j) = some e0 := by
        cases hf : es.find? (fun e => edgeMatchB e i j) with
        | none => exact absurd hm (List.find?_eq_none.mp hf e he)
        | some x => exact ⟨x, rfl⟩
      have hp := List.find?_some hfind
      rw [hfind]
      simp [hp]
  | false =>
      have hnone : es.find? (fun e => edgeMatchB e i j) = none := by
        rw [List.find?_eq_none]
        intro e he hme
        rcases List.any_eq_false.mp h e he with hcontra
        exact hcontra hme
      simp only [if_neg Bool.false_ne_true, List.find?_append, hnone]
      simp [edgeMatchB]

/-- A `min 1` clamp of a nonnegative quantity stays in the unit interval. -/
theorem clampTop_bounds (x : ℚ) (hx : 0 ≤ x) : 0 ≤ min 1 x ∧ min 1 x ≤ 1 :=
  ⟨le_min (by norm_num) hx, min_le_left 1 x⟩

/-- A `max 0` clamp of a quantity below one stays in the unit interval. -/
theorem clampBot_bounds (x : ℚ) (hx : x ≤ 1) : 0 ≤ max 0 x ∧ max 0 x ≤ 1 :=
  ⟨le_max_left 0 x, max_le (by norm_num) hx⟩

/-- One event application with nonnegative magnitude keeps every health and
complexity value inside `[0, 1]`. -/
theorem event_apply_preserves_unit (e : Event) (s : SimulationState)
    (hm : 0 ≤ e.magnitude) (hs : fieldsInUnit s) : fieldsInUnit (e.apply s) := by
  cases e with
  | featureChange node mag =>
      simp only [Event.magnitude] at hm
      intro n
      obtain ⟨⟨hh0, hh1⟩, ⟨hc0, hc1⟩⟩ := hs n
      obtain ⟨⟨hH0, hH1⟩, ⟨hC0, hC1⟩⟩ := hs node
      simp only [Event.apply, dictSet]
      by_cases hn : n = node
      · rw [if_pos hn, if_pos hn]
        exact ⟨clampBot_bounds _ (by linarith), clampTop_bounds _ (by linarith)⟩
      · rw [if_neg hn, if_neg hn]
        exact ⟨⟨hh0, hh1⟩, ⟨hc0, hc1⟩⟩
  | refactor node mag =>
      simp only [Event.magnitude] at hm
      intro n
      obtain ⟨⟨hh0, hh1⟩, ⟨hc0, hc1⟩⟩ := hs n
      obtain ⟨⟨hH0, hH1⟩, ⟨hC0, hC1⟩⟩ := hs node
      simp only [Event.apply, dictSet]
      by_cases hn : n = node
      · rw [if_pos hn, if_pos hn]
        exact ⟨clampTop_bounds _ (by linarith), clampBot_bounds _ (by linarith)⟩
      · rw [if_neg hn, if_neg hn]
        exact ⟨⟨hh0, hh1⟩, ⟨hc0, hc1⟩⟩
  | patch node mag =>
      simp only [Event.magnitude] at hm
      intro n
      obtain ⟨⟨hh0, hh1⟩, ⟨hc0, hc1⟩⟩ := hs n
      obtain ⟨⟨hH0, hH1⟩, ⟨hC0, hC1⟩⟩ := hs node
      simp only [Event.apply, dictSet]
      by_cases hn : n = node
      · rw [if_pos hn, if_pos hn]
        exact ⟨clampTop_bounds _ (by linarith), clampTop_bounds _ (by linarith)⟩
      · rw [if_neg hn, if_neg hn]
        exact ⟨⟨hh0, hh1⟩, ⟨hc0, hc1⟩⟩
  | healthDecay node rate =>
      simp only [Event.magnitude] at hm
      cases node with
      | none =>
          intro n
          obtain ⟨⟨hh0, hh1⟩, ⟨hc0, hc1⟩⟩ := hs n
          simp only [Event.apply]
          refine ⟨?_, ⟨hc0, hc1⟩⟩
          by_cases hn : n ∈ s.graph.nodes
          · rw [if_pos hn]
            exact clampBot_bounds _ (by linarith)
          · rw [if_neg hn]
            exact ⟨hh0, hh1⟩
      | some node =>
          intro n
          obtain ⟨⟨hh0, hh1⟩, ⟨hc0, hc1⟩⟩ := hs n
          obtain ⟨⟨hH0, hH1⟩, _⟩ := hs node
          simp only [Event.apply, dictSet]
          refine ⟨?_, ⟨hc0, hc1⟩⟩
          by_cases hn : n = node
          · rw [if_pos hn]
            exact clampBot_bounds _ (by linarith)
          · rw [if_neg hn]
            exact ⟨hh0, hh1⟩

/-- `foldl` step of the Python arg-max: the result scores at least the seed
and the seeded list splits as strictly-smaller prefix, result, no-larger
suffix (the first maximal element wins ties). -/
theorem foldl_pickMax_spec (score : String → ℚ) (start : String) (l : List String) :
    score start ≤ score (l.foldl (fun best m => if score best < score m then m else best) start) ∧
    ∃ l1 l2,
      start :: l = l1 ++ (l.foldl (fun best m => if score best < score m then m else best) start) :: l2 ∧
      (∀ m ∈ l1, score m < score (l.foldl (fun best m => if score best < score m then m else best) start)) ∧
      (∀ m ∈ l2, score m ≤ score (l.foldl (fun best m => if score best < score m then m else best) start)) := by
  induction l generalizing start with
  | nil =>
      exact ⟨le_refl _, [], [], rfl, by simp, by simp⟩
  | cons a t ih =>
      simp only [List.foldl_cons]
      by_cases h : score start < score a
      · rw [if_pos h]
        obtain ⟨hle, l1, l2, hdec, h1, h2⟩ := ih a
        refine ⟨(le_of_lt h).trans hle, start :: l1, l2, ?_, ?_, h2⟩
        · rw [List.cons_append, hdec]
        · intro m hmem
          rcases List.mem_cons.mp hmem with rfl | hmem2
          · exact h.trans_le hle
          · exact h1 m hmem2
      · rw [if_neg h]
        obtain ⟨hle, l1, l2, hdec, h1, h2⟩ := ih start
        cases l1 with
        | nil =>
            simp only [List.nil_append] at hdec
            have hr : t.foldl (fun best m => if score best < score m then m else best) start = start :=
              (List.cons.injEq _ _ _ _).mp hdec |>.1.symm
            refine ⟨hle, [], a :: (t), ?_, by simp, ?_⟩
            · rw [hr]; rfl
            · intro m hmem
              rcases List.mem_cons.mp hmem with rfl | hmem2
              · rw [hr]; exact le_of_not_lt h
              · rw [hr]
                have ht : t = l2 := (List.cons.injEq _ _ _ _).mp hdec |>.2
                rw [hr] at h2
                exact h2 m (ht ▸ hmem2)
        | cons b l1t =>
            have hb : b = start := ((List.cons.injEq _ _ _ _).mp hdec).1.symm
            have ht : t = l1t ++ (t.foldl (fun best m => if score best < score m then m else best) start) :: l2 :=
              ((List.cons.injEq _ _ _ _).mp hdec).2
            have hstart : score start <
                score (t.foldl (fun best m => if score best < score m then m else best) start) :=
              hb ▸ h1 b (by simp)
            refine ⟨hle, start :: a :: l1t, l2, ?_, ?_, h2⟩
            · rw [List.cons_append, List.cons_append]
              conv_lhs => rw [ht]
            · intro m hmem
              rcases List.mem_cons.mp hmem with rfl | hmem2
              · exact hstart
              · rcases List.mem_cons.mp hmem2 with rfl | hmem3
                · exact (le_of_not_lt h).trans_lt hstart
                · exact h1 m (by rw [hb] at h1 ⊢; exact List.mem_cons_of_mem _ hmem3)

/-- `pickMax` on a nonempty node list returns the first node attaining the
maximal score. -/
theorem pickMax_spec (score : String → ℚ) (ns : List String) (h : ns ≠ []) :
    ∃ r l1 l2, pickMax score ns = some r ∧ ns = l1 ++ r :: l2 ∧
      (∀ m ∈ l1, score m < score r) ∧ (∀ m ∈ l2, score m ≤ score r) := by
  cases ns with
  | nil => exact absurd rfl h
  | cons a t =>
      obtain ⟨_, l1, l2, hdec, h1, h2⟩ := foldl_pickMax_spec score a t
      exact ⟨_, l1, l2, rfl, hdec, h1, h2⟩

/-- `pickMax` never returns `none` on a nonempty node list. -/
theorem pickMax_isSome (score : String → ℚ) (ns : List String) (h : ns ≠ []) :
    (pickMax score ns).isSome = true := by
  cases ns with
  | nil => exact absurd rfl h
  | cons a t => rfl

/-- `Option.map` preserves `isSome`. -/
theorem isSome_map_event (o : Option String) (f : String → Event) :
    (o.map f).isSome = o.isSome := by
  cases o <;> rfl

/-- C1 (counterexample): on the first energy computation of a run
(`bad_prev` zero-initialized), the kinetic energy is NOT 0: for a single
node with health 0.5, complexity 0.6 the derived badness is 0.47 and
`update_energies` computes `T = ½·0.47² = 2209/20000 ≠ 0`. -/
theorem run_init_kinetic_nonzero :
    (∀ n, stateC1.bad_prev n = 0) ∧
    (Simulator.run_init stateC1).T = 2209/20000 ∧
    (Simulator.run_init stateC1).T ≠ 0 := by
  refine ⟨fun _ => rfl, ?_, ?_⟩ <;>
    simp [Simulator.run_init, SimulationState.update_energies,
      SimulationState.update_derived_fields, SimulationState.create, stateC1,
      TGraph.init, addEdgeRaw, insertNode, compute_kinetic_energy,
      compute_structural_potential, compute_business_potential,
      compute_hamiltonian, compute_lagrangian, lapMatrix, lapEntry, rowDegree,
      adjW, findEdgeWeight, edgeMatchB, incidentPairs] <;> norm_num

/-- C1 (amended): with a zero-initialized `bad_prev` (the state of the
first `update_energies` call of a run), the kinetic term equals
`½ · Σᵢ bad[i]²` over the node-ordered badness vector — zero only when the
badness vector itself is zero, not in general. -/
theorem update_energies_kinetic_from_zero (s : SimulationState)
    (h : ∀ n, s.bad_prev n = 0) :
    (s.update_energies).T = (1/2) * ((s.graph.nodes.map (fun n => s.bad n ^ 2)).sum) := by
  show compute_kinetic_energy (s.graph.nodes.map s.bad) (s.graph.nodes.map s.bad_prev) = _
  unfold compute_kinetic_energy
  congr 1
  rw [List.zip_map']
  rw [List.map_map]
  refine congrArg List.sum ?_
  apply List.map_congr_left
  intro n _
  simp [Function.comp, h n]

/-- Witness for C1 (amended) at the concrete one-node first-step state. -/
theorem update_energies_kinetic_from_zero_witness :
    (∀ n, stateC1d.bad_prev n = 0) ∧
    (stateC1d.update_energies).T =
      (1/2) * ((stateC1d.graph.nodes.map (fun n => stateC1d.bad n ^ 2)).sum) :=
  ⟨fun _ => rfl, update_energies_kinetic_from_zero stateC1d (fun _ => rfl)⟩

/-- C2 (counterexample): `add_edge_weighted` with weight 0 (≤ 0) does not
fail and does modify the graph: the edge count rises from 0 to 1 and the
`(A, B)` edge is stored with weight 0. -/
theorem add_edge_zero_weight_modifies :
    graphC2.edge_count = 0 ∧
    (graphC2.add_edge_weighted "A" "B" 0).edge_count = 1 ∧
    findEdgeWeight (graphC2.add_edge_weighted "A" "B" 0).edges "A" "B" = some 0 := by
  refine ⟨rfl, rfl, ?_⟩
  simp [graphC2, TGraph.add_edge_weighted, TGraph.init, addEdgeRaw, insertNode,
    findEdgeWeight, edgeMatchB]

/-- C2 (amended): for every weight `w` — positive, zero or negative —
`add_edge_weighted` upserts the `(i, j)` edge with weight `w` and
recomputes the cached Laplacian; no weight validation or
`InvalidEdgeError` exists in the source. -/
theorem add_edge_weighted_upsert_any_weight (g : TGraph) (i j : String) (w : ℚ) :
    findEdgeWeight (g.add_edge_weighted i j w).edges i j = some w ∧
    (g.add_edge_weighted i j w).L =
      lapMatrix (g.add_edge_weighted i j w).nodes (g.add_edge_weighted i j w).edges :=
  ⟨addEdgeRaw_find g.nodes g.edges i j w, rfl⟩

/-- C3 (counterexample): a `FeatureChange` with negative magnitude −2
drives the complexity of a state with all fields at 0.5 down to −1.5,
outside `[0, 1]` — the one-sided clamps do not protect against adversarial
(negative) magnitudes. -/
theorem feature_change_negative_magnitude_escapes :
    fieldsInUnit stateC3 ∧
    ¬ fieldsInUnit ((Event.featureChange "A" (-2)).apply stateC3) := by
  constructor
  · intro n
    refine ⟨⟨?_, ?_⟩, ⟨?_, ?_⟩⟩ <;>
      simp [stateC3, SimulationState.create] <;> norm_num
  · intro hcontra
    have h1 := (hcontra "A").2.1
    simp only [Event.apply, dictSet, stateC3, SimulationState.create, if_pos rfl] at h1
    rw [min_def] at h1
    norm_num at h1

/-- C3 (amended): for every sequence of events whose magnitudes (or decay
rates) are nonnegative — the source's documented `[0, 1]` parameter range —
and every state with health and complexity in `[0, 1]`, applying the
events in order (hence also any number of repeated applications) keeps
every health and complexity value inside `[0, 1]`. -/
theorem events_preserve_unit_interval (es : List Event) (s : SimulationState)
    (hm : ∀ e ∈ es, 0 ≤ e.magnitude) (hs : fieldsInUnit s) :
    fieldsInUnit (es.foldl (fun t e => e.apply t) s) := by
  induction es generalizing s with
  | nil => exact hs
  | cons e t ih =>
      exact ih (e.apply s) (fun x hx => hm x (List.mem_cons_of_mem e hx))
        (event_apply_preserves_unit e s (hm e (List.mem_cons_self e t)) hs)

/-- Witness for C3 (amended): one event of each kind with its default
magnitude, applied in sequence to the all-0.5 state. -/
theorem events_preserve_unit_interval_witness :
    (∀ e ∈ [Event.featureChange "A" (1/10), Event.refactor "A" (15/100),
        Event.patch "A" (1/5), Event.healthDecay none (1/100)], 0 ≤ e.magnitude) ∧
    fieldsInUnit stateC3 ∧
    fieldsInUnit ([Event.featureChange "A" (1/10), Event.refactor "A" (15/100),
        Event.patch "A" (1/5), Event.healthDecay none (1/100)].foldl
      (fun t e => e.apply t) stateC3) := by
  have hm : ∀ e ∈ [Event.featureChange "A" (1/10), Event.refactor "A" (15/100),
      Event.patch "A" (1/5), Event.healthDecay none (1/100)], 0 ≤ e.magnitude := by
    intro e he
    fin_cases he <;> norm_num [Event.magnitude]
  have hs : fieldsInUnit stateC3 := by
    intro n
    refine ⟨⟨?_, ?_⟩, ⟨?_, ?_⟩⟩ <;>
      simp [stateC3, SimulationState.create] <;> norm_num
  exact ⟨hm, hs, events_preserve_unit_interval _ _ hm hs⟩

/-- C4: the cached Laplacian always equals `D − A` for the current edge
set — after construction, after `add_edge_weighted`, and after
`remove_edge_safe` (which preserves the invariant also in its no-op
branch) — and the `D − A` matrix is symmetric with every row summing to 0
(for the duplicate-free node lists networkx guarantees). -/
theorem laplacian_cache_invariant :
    (∀ ns es, (TGraph.init ns es).L =
      lapMatrix (TGraph.init ns es).nodes (TGraph.init ns es).edges) ∧
    (∀ (g : TGraph) (i j : String) (w : ℚ), (g.add_edge_weighted i j w).L =
      lapMatrix (g.add_edge_weighted i j w).nodes (g.add_edge_weighted i j w).edges) ∧
    (∀ (g : TGraph) (i j : String), g.L = lapMatrix g.nodes g.edges →
      (g.remove_edge_safe i j).L =
        lapMatrix (g.remove_edge_safe i j).nodes (g.remove_edge_safe i j).edges) ∧
    (∀ ns es i j, (((lapMatrix ns es).getD i []).getD j 0) =
      (((lapMatrix ns es).getD j []).getD i 0)) ∧
    (∀ ns es, ns.Nodup → ∀ row ∈ lapMatrix ns es, row.sum = 0) := by
  refine ⟨fun ns es => rfl, fun g i j w => rfl, ?_, lapMatrix_getD_symm, ?_⟩
  · intro g i j h
    unfold TGraph.remove_edge_safe
    split
    · rfl
    · exact h
  · intro ns es hd row hrow
    rcases List.mem_map.mp hrow with ⟨u, hu, rfl⟩
    exact lapRow_sum_zero ns es u hd hu

/-- Witness for C4 at a concrete two-node, one-edge graph: the no-op and
real branches of `remove_edge_safe` keep the invariant, and the rows of
its Laplacian sum to zero. -/
theorem laplacian_cache_invariant_witness :
    (((TGraph.init ["A", "B"] [("A", "B", 1)]).remove_edge_safe "A" "B").L =
      lapMatrix ((TGraph.init ["A", "B"] [("A", "B", 1)]).remove_edge_safe "A" "B").nodes
        ((TGraph.init ["A", "B"] [("A", "B", 1)]).remove_edge_safe "A" "B").edges) ∧
    (["A", "B"].Nodup ∧
      ∀ row ∈ lapMatrix ["A", "B"] [("A", "B", 1)], row.sum = 0) :=
  ⟨laplacian_cache_invariant.2.2.1 (TGraph.init ["A", "B"] [("A", "B", 1)]) "A" "B"
      (laplacian_cache_invariant.1 ["A", "B"] [("A", "B", 1)]),
   by decide,
   laplacian_cache_invariant.2.2.2.2 ["A", "B"] [("A", "B", 1)] (by decide)⟩

/-- C5: `step_forward` sets `bad_prev` to exactly the `bad` mapping from
before the call, increments `time_step` by exactly 1, and leaves every
other component of the state (graph, primitive and derived fields,
energies, local energies, incidents) unchanged. -/
theorem step_forward_spec (s : SimulationState) :
    (s.step_forward).bad_prev = s.bad ∧
    (s.step_forward).time_step = s.time_step + 1 ∧
    (s.step_forward).graph = s.graph ∧
    (s.step_forward).health = s.health ∧
    (s.step_forward).complexity = s.complexity ∧
    (s.step_forward).demand = s.demand ∧
    (s.step_forward).risk = s.risk ∧
    (s.step_forward).bad = s.bad ∧
    (s.step_forward).flow = s.flow ∧
    (s.step_forward).grad_V = s.grad_V ∧
    (s.step_forward).V_struct = s.V_struct ∧
    (s.step_forward).V_bus = s.V_bus ∧
    (s.step_forward).V = s.V ∧
    (s.step_forward).T = s.T ∧
    (s.step_forward).H = s.H ∧
    (s.step_forward).L = s.L ∧
    (s.step_forward).E_local = s.E_local ∧
    (s.step_forward).incidents = s.incidents :=
  ⟨rfl, rfl, rfl, rfl, rfl, rfl, rfl, rfl, rfl, rfl, rfl, rfl, rfl, rfl, rfl,
   rfl, rfl, rfl⟩

/-- C6: the derivation pipeline computes `risk[i] = complexity[i]·(1−health[i])`
first and then `bad[i] = α·(1−health[i]) + β·complexity[i] + γ·risk[i]` for
every graph node; at health 0.5, complexity 0.6 with the defaults
α=0.4, β=0.3, γ=0.3 this gives exactly risk = 0.3 and bad = 0.47. -/
theorem update_derived_fields_risk_bad (s : SimulationState) (a b c : ℚ)
    (n : String) (h : n ∈ s.graph.nodes) :
    ((s.update_derived_fields a b c).risk n = s.complexity n * (1 - s.health n) ∧
     (s.update_derived_fields a b c).bad n =
       a * (1 - s.health n) + b * s.complexity n +
         c * (s.complexity n * (1 - s.health n))) ∧
    ((stateC6.update_derived_fields (2/5) (3/10) (3/10)).risk "A" = 3/10 ∧
     (stateC6.update_derived_fields (2/5) (3/10) (3/10)).bad "A" = 47/100) := by
  refine ⟨⟨?_, ?_⟩, ?_, ?_⟩
  · simp [SimulationState.update_derived_fields, h]
  · simp [SimulationState.update_derived_fields, h]
  · simp [SimulationState.update_derived_fields, stateC6, SimulationState.create,
      TGraph.init, insertNode, addEdgeRaw]
    norm_num
  · simp [SimulationState.update_derived_fields, stateC6, SimulationState.create,
      TGraph.init, insertNode, addEdgeRaw]
    norm_num

/-- Witness for C6 at the spec's worked example (health 0.5,
complexity 0.6, defaults α=0.4, β=0.3, γ=0.3). -/
theorem update_derived_fields_risk_bad_witness :
    ("A" ∈ stateC6.graph.nodes) ∧
    (((stateC6.update_derived_fields (2/5) (3/10) (3/10)).risk "A" =
        stateC6.complexity "A" * (1 - stateC6.health "A") ∧
      (stateC6.update_derived_fields (2/5) (3/10) (3/10)).bad "A" =
        (2/5) * (1 - stateC6.health "A") + (3/10) * stateC6.complexity "A" +
          (3/10) * (stateC6.complexity "A" * (1 - stateC6.health "A"))) ∧
     ((stateC6.update_derived_fields (2/5) (3/10) (3/10)).risk "A" = 3/10 ∧
      (stateC6.update_derived_fields (2/5) (3/10) (3/10)).bad "A" = 47/100)) :=
  ⟨by decide,
   update_derived_fields_risk_bad stateC6 (2/5) (3/10) (3/10) "A" (by decide)⟩

/-- C7: with positive steepness and positive `max_prob`,
`incident_probability` is monotonically non-decreasing in badness, and its
value always lies within `[0, max_prob]`. -/
theorem incident_probability_monotone_bounded (threshold steepness max_prob b1 b2 : ℝ)
    (hb : b1 ≤ b2) (hs : 0 < steepness) (hm : 0 < max_prob) :
    incident_probability b1 threshold steepness max_prob ≤
      incident_probability b2 threshold steepness max_prob ∧
    0 ≤ incident_probability b1 threshold steepness max_prob ∧
    incident_probability b1 threshold steepness max_prob ≤ max_prob := by
  unfold incident_probability
  have e1pos := Real.exp_pos (-(steepness * (b1 - threshold)))
  have e2pos := Real.exp_pos (-(steepness * (b2 - threshold)))
  have hle : Real.exp (-(steepness * (b2 - threshold))) ≤
      Real.exp (-(steepness * (b1 - threshold))) :=
    Real.exp_le_exp.mpr (by nlinarith)
  have hone : 1 / (1 + Real.exp (-(steepness * (b1 - threshold)))) ≤ 1 := by
    rw [div_le_one (by linarith)]
    linarith
  refine ⟨?_, ?_, ?_⟩
  · apply mul_le_mul_of_nonneg_left _ hm.le
    exact one_div_le_one_div_of_le (by linarith) (by linarith)
  · apply mul_nonneg hm.le
    apply div_nonneg zero_le_one
    linarith
  · exact mul_le_of_le_one_right hm.le hone

/-- Witness for C7 at the source defaults threshold 0.6, steepness 10,
max_prob 0.05 and badness values 0 ≤ 1. -/
theorem incident_probability_monotone_bounded_witness :
    ((0:ℝ) ≤ 1 ∧ (0:ℝ) < 10 ∧ (0:ℝ) < 1/20) ∧
    (incident_probability 0 (3/5) 10 (1/20) ≤ incident_probability 1 (3/5) 10 (1/20) ∧
     0 ≤ incident_probability 0 (3/5) 10 (1/20) ∧
     incident_probability 0 (3/5) 10 (1/20) ≤ 1/20) :=
  ⟨⟨by norm_num, by norm_num, by norm_num⟩,
   incident_probability_monotone_bounded (3/5) 10 (1/20) 0 1
     (by norm_num) (by norm_num) (by norm_num)⟩

/-- C8: on a nonempty graph, `FeatureEngineer.choose_action` returns a
`FeatureChange` of magnitude 0.1 targeting the arg-max of
`business_weight·demand[n] − stability_weight·bad[n]`, where the chosen
node is the first in graph (insertion) order attaining the maximal score:
every earlier node scores strictly less and every later node scores no
more. -/
theorem feature_engineer_argmax (bw sw : ℚ) (s : SimulationState)
    (h : s.graph.nodes ≠ []) :
    ∃ n l1 l2,
      FeatureEngineer.choose_action bw sw s = some (Event.featureChange n (1/10)) ∧
      s.graph.nodes = l1 ++ n :: l2 ∧
      (∀ m ∈ l1, bw * s.demand m - sw * s.bad m < bw * s.demand n - sw * s.bad n) ∧
      (∀ m ∈ l2, bw * s.demand m - sw * s.bad m ≤ bw * s.demand n - sw * s.bad n) := by
  obtain ⟨r, l1, l2, hp, hdec, h1, h2⟩ :=
    pickMax_spec (fun n => bw * s.demand n - sw * s.bad n) s.graph.nodes h
  refine ⟨r, l1, l2, ?_, hdec, h1, h2⟩
  unfold FeatureEngineer.choose_action
  rw [hp]
  rfl

/-- Witness for C8 on a two-node graph with tied scores: the theorem
applies, and the arg-max characterization is satisfied. -/
theorem feature_engineer_argmax_witness :
    stateC8.graph.nodes ≠ [] ∧
    ∃ n l1 l2,
      FeatureEngineer.choose_action (4/5) (1/5) stateC8 = some (Event.featureChange n (1/10)) ∧
      stateC8.graph.nodes = l1 ++ n :: l2 ∧
      (∀ m ∈ l1, (4/5) * stateC8.demand m - (1/5) * stateC8.bad m <
        (4/5) * stateC8.demand n - (1/5) * stateC8.bad n) ∧
      (∀ m ∈ l2, (4/5) * stateC8.demand m - (1/5) * stateC8.bad m ≤
        (4/5) * stateC8.demand n - (1/5) * stateC8.bad n) :=
  ⟨by decide, feature_engineer_argmax (4/5) (1/5) stateC8 (by decide)⟩

/-- C9: `compute_local_dirichlet_energy` is 0 at every node with no
neighbors, and on the two-edge star (center `A`, leaves `B`, `C`, unit
weights) with badness `{A: 1, B: 0, C: 0}` it yields exactly
`E_local[A] = 1` and `E_local[B] = ½`. -/
theorem local_dirichlet_isolated_and_star (g : TGraph) (bad : String → ℚ)
    (n : String) (h : g.get_neighbors n = []) :
    compute_local_dirichlet_energy g bad n = 0 ∧
    (compute_local_dirichlet_energy gStar badStar "A" = 1 ∧
     compute_local_dirichlet_energy gStar badStar "B" = 1/2) := by
  refine ⟨?_, ?_, ?_⟩
  · unfold compute_local_dirichlet_energy
    rw [h]
    rfl
  · simp [compute_local_dirichlet_energy, gStar, badStar, TGraph.init,
      TGraph.get_neighbors, addEdgeRaw, insertNode, edgeWeightD, findEdgeWeight,
      edgeMatchB]
    norm_num
  · simp [compute_local_dirichlet_energy, gStar, badStar, TGraph.init,
      TGraph.get_neighbors, addEdgeRaw, insertNode, edgeWeightD, findEdgeWeight,
      edgeMatchB]

/-- Witness for C9 at a concrete isolated node (edgeless two-node graph). -/
theorem local_dirichlet_isolated_and_star_witness :
    gIso.get_neighbors "A" = [] ∧
    (compute_local_dirichlet_energy gIso badStar "A" = 0 ∧
     (compute_local_dirichlet_energy gStar badStar "A" = 1 ∧
      compute_local_dirichlet_energy gStar badStar "B" = 1/2)) :=
  ⟨rfl, local_dirichlet_isolated_and_star gIso badStar "A" rfl⟩

/-- C10: on a state with at least one node, all three actor policies
always return an event (never `None`): the two engineer arg-maxes and the
AI agent under every draw `r` and both flow settings; consequently
`Actor.act` increments the action counter on every call. -/
theorem actors_always_emit (s : SimulationState) (bw sw bw2 sw2 fb : ℚ)
    (uf : Bool) (r : ℚ) (cnt : ℕ) (h : s.graph.nodes ≠ []) :
    (FeatureEngineer.choose_action bw sw s).isSome = true ∧
    (RefactorEngineer.choose_action bw2 sw2 s).isSome = true ∧
    (AIAgent.choose_action fb uf r s).isSome = true ∧
    actCount (FeatureEngineer.choose_action bw sw s) cnt = cnt + 1 ∧
    actCount (RefactorEngineer.choose_action bw2 sw2 s) cnt = cnt + 1 ∧
    actCount (AIAgent.choose_action fb uf r s) cnt = cnt + 1 := by
  have hf : (FeatureEngineer.choose_action bw sw s).isSome = true := by
    unfold FeatureEngineer.choose_action
    rw [isSome_map_event]
    exact pickMax_isSome _ _ h
  have hr : (RefactorEngineer.choose_action bw2 sw2 s).isSome = true := by
    unfold RefactorEngineer.choose_action
    rw [isSome_map_event]
    exact pickMax_isSome _ _ h
  have hai : (AIAgent.choose_action fb uf r s).isSome = true := by
    unfold AIAgent.choose_action
    rw [isSome_map_event]
    split
    · exact pickMax_isSome _ _ h
    · split
      · exact pickMax_isSome _ _ h
      · exact pickMax_isSome _ _ h
  refine ⟨hf, hr, hai, ?_, ?_, ?_⟩ <;> simp [actCount, hf, hr, hai]

/-- Witness for C10 on a concrete two-node state with concrete weights,
bias, draw and counter. -/
theorem actors_always_emit_witness :
    stateC10.graph.nodes ≠ [] ∧
    ((FeatureEngineer.choose_action (4/5) (1/5) stateC10).isSome = true ∧
     (RefactorEngineer.choose_action (1/5) (4/5) stateC10).isSome = true ∧
     (AIAgent.choose_action (3/5) true (1/2) stateC10).isSome = true ∧
     actCount (FeatureEngineer.choose_action (4/5) (1/5) stateC10) 0 = 0 + 1 ∧
     actCount (RefactorEngineer.choose_action (1/5) (4/5) stateC10) 0 = 0 + 1 ∧
     actCount (AIAgent.choose_action (3/5) true (1/2) stateC10) 0 = 0 + 1) :=
  ⟨by decide,
   actors_always_emit stateC10 (4/5) (1/5) (1/5) (4/5) (3/5) true (1/2) 0 (by decide)⟩

end Tensegrity
